import Mathlib

/-!
# A shallow embedding of the `forth_times_the_charm` interpreter

This file models `src/main.rs`: a Forth-like REPL with an `i64` stack, a
dictionary mapping word names to native operations or stored macro-body
strings, a whitespace tokenizer with an interpreting/defining mode, and an
executor whose nested `if/else/then` control flow is a stack of capture
frames.

Modelling conventions:
* The Rust `Vec<i64>` stack is a `List Int` whose head is the top of the
  stack (the most recently pushed value); `Vec::push` is `cons`,
  `Vec::pop` takes the head.
* `i64` values are `Int` with two's-complement wrapping applied exactly
  where the Rust arithmetic operators can overflow (`+`, `-`, `*`;
  division uses `checked_div`, which fails instead of wrapping).
* `HashMap<String, Definition>` is an association list; `insert` prepends
  and `get` takes the first match, which is observationally the
  overwrite-on-insert behaviour of the map.
* Functions that Rust makes fallible return a result variant carrying the
  mutated state (errors do not roll the stack back, exactly as in the
  source).  A Rust panic (`todo!()`, `Option::unwrap` on `None`) aborts
  the process; it is modelled by a distinguished `panicked` result.
* The executor's recursion (macro expansion and captured-branch execution)
  is not structurally terminating in the source, so the model carries a
  fuel counter that is spent once per processed token and once per
  re-entry; `oof` (out of fuel) is a model artifact that a sufficiently
  large fuel avoids on every terminating source execution.
* `println!` output is collected as the list of printed values, in order.
-/

namespace Forth

/-- The four keyword words recognised by the tokenizer (`Keyword` in the
source). -/
inductive Keyword where
  | kIf
  | kElse
  | kThen
  | kDo
deriving DecidableEq, Repr

/-- `ForthError` from the source.  `unbalancedIf` is declared in the Rust
enum but never constructed by the code. -/
inductive ForthError where
  | wordNotDefined (w : String)
  | stackUnderflow
  | divByZero
  | unbalancedIf
deriving DecidableEq, Repr

/-- Identifiers for the twelve native operations installed by
`Machine::new`.  The source stores Rust function pointers; the model
identifies each pointer by name and interprets it with `runNative`. -/
inductive NativeOp where
  | add
  | sub
  | mul
  | div
  | dup
  | print
  | drop
  | swap
  | eqOp
  | neOp
  | ltOp
  | gtOp
deriving DecidableEq, Repr

/-- `Definition` from the source: a native operation or a stored,
not-yet-tokenized macro body string. -/
inductive Definition where
  | native (op : NativeOp)
  | tokens (body : String)
deriving DecidableEq, Repr

/-- `Token` from the source. -/
inductive Token where
  | number (n : Int)
  | op (d : Definition)
  | keyword (k : Keyword)
deriving DecidableEq, Repr

/-- The dictionary: association list standing in for
`HashMap<String, Definition>`. -/
abbrev Dict := List (String × Definition)

/-- `HashMap::get`: first match wins. -/
def lookupD : Dict → String → Option Definition
  | [], _ => none
  | (k, v) :: rest, w => if k = w then some v else lookupD rest w

/-- `HashMap::insert` with overwrite semantics: prepend, so that
`lookupD` sees the newest binding. -/
def insertD (d : Dict) (k : String) (v : Definition) : Dict :=
  (k, v) :: d

/-- The dictionary built by `Machine::new`, inserted in source order. -/
def initDict : Dict :=
  insertD (insertD (insertD (insertD (insertD (insertD (insertD (insertD
    (insertD (insertD (insertD (insertD [] "+" (.native .add))
      "-" (.native .sub)) "*" (.native .mul)) "/" (.native .div))
      "dup" (.native .dup)) "." (.native .print)) "drop" (.native .drop))
      "swap" (.native .swap)) "=" (.native .eqOp)) "<>" (.native .neOp))
      "<" (.native .ltOp)) ">" (.native .gtOp)

/-- The `i64` range bounds. -/
def i64min : Int := -(2 ^ 63)

/-- Largest `i64`. -/
def i64max : Int := 2 ^ 63 - 1

/-- Two's-complement wrapping into the `i64` range, the release-profile
semantics of Rust's `+`, `-`, `*` on `i64`. -/
def wrap64 (x : Int) : Int :=
  (x + 2 ^ 63) % 2 ^ 64 - 2 ^ 63

/-- Truncating-toward-zero division, the semantics of Rust's `i64`
division (`checked_div` when it succeeds). -/
def tdiv64 (a b : Int) : Int :=
  Int.sign a * Int.sign b * ((a.natAbs / b.natAbs : Nat) : Int)

/-- Rust `str::parse::<i64>`: optional single `+`/`-` sign, one or more
ASCII digits, value required to fit in `i64`. -/
def parseI64 (s : String) : Option Int :=
  match s.toList with
  | [] => none
  | c :: cs =>
    let digits := if c = '-' ∨ c = '+' then cs else c :: cs
    let neg := c = '-'
    if digits = [] then none
    else if digits.all (fun ch => ch.isDigit) then
      let n : Nat := digits.foldl (fun acc ch => acc * 10 + (ch.toNat - 48)) 0
      let v : Int := if neg then -(n : Int) else (n : Int)
      if i64min ≤ v ∧ v ≤ i64max then some v else none
    else none

/-- `Keyword::try_from` on a word. -/
def kwOf (w : String) : Option Keyword :=
  if w = "if" then some .kIf
  else if w = "else" then some .kElse
  else if w = "then" then some .kThen
  else if w = "do" then some .kDo
  else none

/-- Accumulator step of `splitWs`. -/
def splitWsGo : List Char → List Char → List String
  | [], cur => if cur = [] then [] else [String.mk cur]
  | c :: cs, cur =>
    if c.isWhitespace then
      if cur = [] then splitWsGo cs [] else String.mk cur :: splitWsGo cs []
    else splitWsGo cs (cur ++ [c])

/-- Rust `str::split_whitespace`: maximal runs of non-whitespace
characters, empties skipped. -/
def splitWs (s : String) : List String :=
  splitWsGo s.toList []

/-- `itertools::join(words, " ")`: rejoin the accumulated definition body
with single spaces. -/
def joinSpace : List String → String
  | [] => ""
  | [w] => w
  | w :: ws => w ++ " " ++ joinSpace ws

/-- `LexMode` from `Machine::lex`: interpreting, or accumulating the words
of a definition block. -/
inductive LexMode where
  | interpreting
  | defining (cur : List String)
deriving DecidableEq, Repr

/-- Result of `Machine::lex`.  Both success and error carry the
dictionary, because a line may install definitions before failing;
`panicked` models the `name.unwrap()` panic and carries the dictionary at
the point of the abort. -/
inductive LexRes where
  | ok (toks : List Token) (d : Dict)
  | err (e : ForthError) (d : Dict)
  | panicked (d : Dict)
deriving DecidableEq, Repr

/-- The word loop of `Machine::lex`.  `acc` is the token list built so
far; the word order of the source loop is preserved: number, then
dictionary, then keyword, then `:`, else `WordNotDefined`.  In defining
mode `;` closes the block, popping the first accumulated word as the name
(`unwrap` panics when there is none) and installing the rejoined body. -/
def lexGo (d : Dict) (acc : List Token) (mode : LexMode) : List String → LexRes
  | [] => .ok acc d
  | w :: ws =>
    match mode with
    | .interpreting =>
      match parseI64 w with
      | some n => lexGo d (acc ++ [.number n]) .interpreting ws
      | none =>
        match lookupD d w with
        | some defn => lexGo d (acc ++ [.op defn]) .interpreting ws
        | none =>
          match kwOf w with
          | some k => lexGo d (acc ++ [.keyword k]) .interpreting ws
          | none =>
            if w = ":" then lexGo d acc (.defining []) ws
            else .err (.wordNotDefined w) d
    | .defining cur =>
      if w = ";" then
        match cur with
        | [] => .panicked d
        | name :: body =>
          lexGo (insertD d name (.tokens (joinSpace body))) acc .interpreting ws
      else lexGo d acc (.defining (cur ++ [w])) ws

/-- `Machine::lex` on an already-whitespace-split line. -/
def lexWords (d : Dict) (ws : List String) : LexRes :=
  lexGo d [] .interpreting ws

/-- Result of one native operation: the new stack plus an optionally
printed value, or an error together with the stack as the pops left it. -/
inductive NRes where
  | okN (stack : List Int) (printed : Option Int)
  | errN (e : ForthError) (stack : List Int)
deriving DecidableEq, Repr

/-- The twelve native operations of `Machine::new`, each mirroring its
Rust closure including the order of the two pops and the state of the
stack when a pop fails (the successful first pop is not undone). -/
def runNative : NativeOp → List Int → NRes
  | .add, lhs :: rhs :: rest => .okN (wrap64 (lhs + rhs) :: rest) none
  | .add, _ => .errN .stackUnderflow []
  | .sub, rhs :: lhs :: rest => .okN (wrap64 (lhs - rhs) :: rest) none
  | .sub, _ => .errN .stackUnderflow []
  | .mul, lhs :: rhs :: rest => .okN (wrap64 (lhs * rhs) :: rest) none
  | .mul, _ => .errN .stackUnderflow []
  | .div, rhs :: lhs :: rest =>
    if rhs = 0 ∨ (lhs = i64min ∧ rhs = -1) then .errN .divByZero rest
    else .okN (tdiv64 lhs rhs :: rest) none
  | .div, _ => .errN .stackUnderflow []
  | .dup, x :: rest => .okN (x :: x :: rest) none
  | .dup, [] => .errN .stackUnderflow []
  | .print, x :: rest => .okN (x :: rest) (some x)
  | .print, [] => .errN .stackUnderflow []
  | .drop, stack => .okN stack.tail none
  | .swap, rhs :: lhs :: rest => .okN (lhs :: rhs :: rest) none
  | .swap, _ => .errN .stackUnderflow []
  | .eqOp, rhs :: lhs :: rest => .okN ((if lhs = rhs then 1 else 0) :: rest) none
  | .eqOp, _ => .errN .stackUnderflow []
  | .neOp, rhs :: lhs :: rest => .okN ((if lhs ≠ rhs then 1 else 0) :: rest) none
  | .neOp, _ => .errN .stackUnderflow []
  | .ltOp, rhs :: lhs :: rest => .okN ((if lhs < rhs then 1 else 0) :: rest) none
  | .ltOp, _ => .errN .stackUnderflow []
  | .gtOp, rhs :: lhs :: rest => .okN ((if lhs > rhs then 1 else 0) :: rest) none
  | .gtOp, _ => .errN .stackUnderflow []

/-- Machine state: the stack, the dictionary, and the printed output so
far (printed values in order). -/
structure St where
  stack : List Int
  dict : Dict
  out : List Int
deriving DecidableEq, Repr

/-- One frame of the executor's mode stack (`ExecMode` in the source):
`Normal`, or an open conditional buffering tokens (`CaptureMode`). -/
inductive Frame where
  | normal
  | ifTrue (buf : List Token) (cap : Bool)
  | ifFalse (buf : List Token) (cap : Bool)
deriving DecidableEq, Repr

/-- `CaptureMode::push`: append the token only while capturing. -/
def bufPush (buf : List Token) (cap : Bool) (t : Token) : List Token :=
  if cap then buf ++ [t] else buf

/-- Result of `Machine::exec` (and of a whole line).  Errors carry the
state as the failed run left it; `panicked` marks a Rust panic
(`todo!()`, an `unwrap` failure); `oof` is fuel exhaustion, an artifact
of the model only. -/
inductive Outcome where
  | ok (st : St)
  | err (e : ForthError) (st : St)
  | panicked (st : St)
  | oof
deriving DecidableEq, Repr

/-- The token loop of `Machine::exec`, with `Machine::run` inlined at the
`Op` case.  The mode stack keeps its top frame at the head; it starts as
`[Frame.normal]` and the source's `last_mut().unwrap()` on an empty mode
stack is a panic (unreachable from `exec`).  Fuel is spent once per
token, once when a macro body is re-entered, and once when a captured
branch is executed; `else`/`then`/`do` reaching a `Normal` frame hit the
source's `todo!()` and panic. -/
def execTok : Nat → St → List Frame → List Token → Outcome
  | 0, _, _, _ => .oof
  | _ + 1, st, _, [] => .ok st
  | _ + 1, st, [], _ :: _ => .panicked st
  | fuel + 1, st, .normal :: rest, .number n :: ts =>
    execTok fuel { st with stack := n :: st.stack } (.normal :: rest) ts
  | fuel + 1, st, .normal :: rest, .op (.native opr) :: ts =>
    (match runNative opr st.stack with
     | .okN s' pr =>
       execTok fuel { st with stack := s', out := st.out ++ pr.toList } (.normal :: rest) ts
     | .errN e s' => .err e { st with stack := s' })
  | fuel + 1, st, .normal :: rest, .op (.tokens body) :: ts =>
    (match lexWords st.dict (splitWs body) with
     | .ok toks d' =>
       (match execTok fuel { st with dict := d' } [.normal] toks with
        | .ok st' => execTok fuel st' (.normal :: rest) ts
        | other => other)
     | .err e d' => .err e { st with dict := d' }
     | .panicked d' => .panicked { st with dict := d' })
  | fuel + 1, st, .normal :: rest, .keyword k :: ts =>
    (match k with
     | .kIf =>
       (match st.stack with
        | [] => .err .stackUnderflow st
        | c :: s' =>
          if c ≠ 0 then
            execTok fuel { st with stack := s' } (.ifTrue [] true :: .normal :: rest) ts
          else
            execTok fuel { st with stack := s' } (.ifFalse [] false :: .normal :: rest) ts)
     | .kElse => .panicked st
     | .kThen => .panicked st
     | .kDo => .panicked st)
  | fuel + 1, st, .ifTrue buf cap :: rest, .number n :: ts =>
    execTok fuel st (.ifTrue (bufPush buf cap (.number n)) cap :: rest) ts
  | fuel + 1, st, .ifTrue buf cap :: rest, .op d :: ts =>
    execTok fuel st (.ifTrue (bufPush buf cap (.op d)) cap :: rest) ts
  | fuel + 1, st, .ifTrue buf cap :: rest, .keyword k :: ts =>
    (match k with
     | .kElse => execTok fuel st (.ifTrue buf false :: rest) ts
     | .kThen =>
       (match execTok fuel st [.normal] buf with
        | .ok st' => execTok fuel st' rest ts
        | other => other)
     | .kIf =>
       (match st.stack with
        | [] => .err .stackUnderflow st
        | c :: s' =>
          if c ≠ 0 then
            execTok fuel { st with stack := s' }
              (.ifTrue [] true :: .ifTrue buf cap :: rest) ts
          else
            execTok fuel { st with stack := s' }
              (.ifFalse [] false :: .ifTrue buf cap :: rest) ts)
     | .kDo => .panicked st)
  | fuel + 1, st, .ifFalse buf cap :: rest, .number n :: ts =>
    execTok fuel st (.ifFalse (bufPush buf cap (.number n)) cap :: rest) ts
  | fuel + 1, st, .ifFalse buf cap :: rest, .op d :: ts =>
    execTok fuel st (.ifFalse (bufPush buf cap (.op d)) cap :: rest) ts
  | fuel + 1, st, .ifFalse buf cap :: rest, .keyword k :: ts =>
    (match k with
     | .kElse => execTok fuel st (.ifFalse buf true :: rest) ts
     | .kThen =>
       (match execTok fuel st [.normal] buf with
        | .ok st' => execTok fuel st' rest ts
        | other => other)
     | .kIf =>
       (match st.stack with
        | [] => .err .stackUnderflow st
        | c :: s' =>
          if c ≠ 0 then
            execTok fuel { st with stack := s' }
              (.ifTrue [] true :: .ifFalse buf cap :: rest) ts
          else
            execTok fuel { st with stack := s' }
              (.ifFalse [] false :: .ifFalse buf cap :: rest) ts)
     | .kDo => .panicked st)

/-- `Machine::exec`: run a token list with a fresh mode stack. -/
def exec (fuel : Nat) (st : St) (toks : List Token) : Outcome :=
  execTok fuel st [.normal] toks

/-- One REPL iteration of `main`: lex the line's words, then execute,
each error propagating. -/
def runLine (fuel : Nat) (st : St) (ws : List String) : Outcome :=
  match lexWords st.dict ws with
  | .ok toks d' => exec fuel { st with dict := d' } toks
  | .err e d' => .err e { st with dict := d' }
  | .panicked d' => .panicked { st with dict := d' }

/-- The freshly constructed machine: empty stack, initial dictionary, no
output. -/
def initSt : St :=
  { stack := [], dict := initDict, out := [] }

/-- A token whose execution in a `Normal` frame touches only the stack
and the output: a number literal or a native operation.  Keywords and
stored-body macros are excluded. -/
def isSimple : Token → Bool
  | .number _ => true
  | .op (.native _) => true
  | _ => false

/-- All tokens of the list are simple. -/
def simpleToks (toks : List Token) : Bool :=
  toks.all isSimple

/-- Result of folding a simple token list over a state: success, an
error with the state the failure left, or `stuck` on a non-simple token
(never reached under `simpleToks`). -/
inductive SRes where
  | okS (st : St)
  | errS (e : ForthError) (st : St)
  | stuck
deriving DecidableEq, Repr

/-- The effect of a simple token list executed in a `Normal` frame: a
plain left fold of pushes and native calls. -/
def stepSimple : St → List Token → SRes
  | st, [] => .okS st
  | st, .number n :: ts => stepSimple { st with stack := n :: st.stack } ts
  | st, .op (.native opr) :: ts =>
    (match runNative opr st.stack with
     | .okN s' pr => stepSimple { st with stack := s', out := st.out ++ pr.toList } ts
     | .errN e s' => .errS e { st with stack := s' })
  | _, _ => .stuck

/-! ## Helper lemmas -/

/-- Values already in the `i64` range are fixed by the wrap. -/
theorem wrap64_eq (x : Int) (hlo : i64min ≤ x) (hhi : x ≤ i64max) :
    wrap64 x = x := by
  have e1 : ((2 : Int) ^ 63) = 9223372036854775808 := by norm_num
  have e2 : ((2 : Int) ^ 64) = 18446744073709551616 := by norm_num
  unfold wrap64
  simp only [i64min, i64max] at hlo hhi
  rw [e1] at hlo hhi
  rw [e1, e2]
  omega

/-- `"+"` is not an integer literal. -/
theorem parse_plus_none : parseI64 "+" = none := rfl

/-- `"-"` is not an integer literal. -/
theorem parse_dash_none : parseI64 "-" = none := rfl

/-- `"*"` is not an integer literal. -/
theorem parse_star_none : parseI64 "*" = none := rfl

/-- `"."` is not an integer literal. -/
theorem parse_dot_none : parseI64 "." = none := rfl

/-- `"+"` resolves to the native addition. -/
theorem lookup_plus : lookupD initDict "+" = some (.native .add) := rfl

/-- `"-"` resolves to the native subtraction. -/
theorem lookup_dash : lookupD initDict "-" = some (.native .sub) := rfl

/-- `"*"` resolves to the native multiplication. -/
theorem lookup_star : lookupD initDict "*" = some (.native .mul) := rfl

/-- `"."` resolves to the native print. -/
theorem lookup_dot : lookupD initDict "." = some (.native .print) := rfl

/-- Executing a single native operation: one step of the executor
followed by the end of the token list. -/
theorem exec_native_one (f : Nat) (opr : NativeOp) (s : List Int) (d : Dict) (o : List Int) :
    exec (f + 2) ⟨s, d, o⟩ [.op (.native opr)] =
      (match runNative opr s with
       | .okN s' pr => .ok ⟨s', d, o ++ pr.toList⟩
       | .errN e s' => .err e ⟨s', d, o⟩) := rfl

/-! ## Claim theorems -/

/-- C1 (code_bug evidence): evaluating the spec's nested-conditional
example line on a fresh machine.  The claim (and the spec) says it
prints `3`; the code prints `2` and ends with the stack `[6, 2, 2]`
(bottom to top; the model lists the top first): each nested `if` pops
its condition from the live stack at capture time, and each buffered
branch body runs only when its `then` arrives, so the outer true-branch
body `2 2` is pushed last and `.` prints `2`. -/
theorem c1_nested_conditional_runs :
    runLine 100 initSt
      ["1", "1", "if", "2", "2", "if", "3", "else", "4", "then",
       "else", "5", "5", "if", "6", "else", "7", "then", "then", "."] =
      .ok ⟨[2, 2, 6], initDict, [2]⟩ := rfl

/-- C2 (code_bug evidence): `else` or `then` reaching a `Normal` frame
hits the source's `todo!()` and panics (aborts the process); it does not
return the declared-but-never-constructed `UnbalancedIf` error. -/
theorem c2_unbalanced_keyword_behavior :
    runLine 2 initSt ["else"] = .panicked initSt
    ∧ runLine 2 initSt ["then"] = .panicked initSt
    ∧ exec 2 initSt [.keyword .kElse] ≠ .err .unbalancedIf initSt :=
  ⟨rfl, rfl, by decide⟩

/-- C3 (counterexample): division fails with `DivByZero` on a nonzero
divisor: with `lhs = i64min` and `rhs = -1`, `checked_div` overflows and
the code returns `DivByZero` even though `rhs ≠ 0`, refuting the claimed
equivalence `error ↔ rhs = 0`. -/
theorem c3_div_counterexample :
    exec 2 ⟨[-1, i64min], initDict, []⟩ [.op (.native .div)] =
      .err .divByZero ⟨[], initDict, []⟩
    ∧ (-1 : Int) ≠ 0 :=
  ⟨rfl, by decide⟩

/-- C3 (amended): with at least two operands, `/` pops `rhs` then `lhs`
and fails with `DivByZero` exactly when `rhs = 0` or when the quotient
overflows (`lhs = i64min` and `rhs = -1`); otherwise it pushes the
quotient truncated toward zero (so `7 / 2 = 3` and `-7 / 2 = -3`). -/
theorem c3_div_amended (lhs rhs : Int) (s : List Int) (d : Dict) (o : List Int) :
    (exec 2 ⟨rhs :: lhs :: s, d, o⟩ [.op (.native .div)] =
      if rhs = 0 ∨ (lhs = i64min ∧ rhs = -1) then .err .divByZero ⟨s, d, o⟩
      else .ok ⟨tdiv64 lhs rhs :: s, d, o⟩)
    ∧ tdiv64 7 2 = 3 ∧ tdiv64 (-7) 2 = -3 := by
  refine ⟨?_, by decide, by decide⟩
  have h := exec_native_one 0 .div (rhs :: lhs :: s) d o
  simp only [Nat.zero_add] at h
  rw [h]
  simp only [runNative]
  by_cases hc : rhs = 0 ∨ (lhs = i64min ∧ rhs = -1)
  · simp only [if_pos hc]
  · simp only [if_neg hc]
    simp

/-- C3 (witness): `7 2 /` on an otherwise empty stack pushes `3`. -/
theorem c3_div_witness :
    exec 2 ⟨[2, 7], initDict, []⟩ [.op (.native .div)] =
      .ok ⟨[3], initDict, []⟩ := by
  have h := (c3_div_amended 7 2 [] initDict []).1
  rw [if_neg (by decide)] at h
  have ht : tdiv64 7 2 = 3 := by decide
  rw [ht] at h
  exact h

/-- C6: on an empty stack, every arithmetic, comparison, print, `dup`
and `swap` word fails with `StackUnderflow` and leaves the machine state
unchanged (stack still empty, nothing printed). -/
theorem c6_empty_stack_underflow :
    runLine 2 initSt ["+"] = .err .stackUnderflow initSt
    ∧ runLine 2 initSt ["-"] = .err .stackUnderflow initSt
    ∧ runLine 2 initSt ["*"] = .err .stackUnderflow initSt
    ∧ runLine 2 initSt ["/"] = .err .stackUnderflow initSt
    ∧ runLine 2 initSt ["="] = .err .stackUnderflow initSt
    ∧ runLine 2 initSt ["<>"] = .err .stackUnderflow initSt
    ∧ runLine 2 initSt ["<"] = .err .stackUnderflow initSt
    ∧ runLine 2 initSt [">"] = .err .stackUnderflow initSt
    ∧ runLine 2 initSt ["."] = .err .stackUnderflow initSt
    ∧ runLine 2 initSt ["dup"] = .err .stackUnderflow initSt
    ∧ runLine 2 initSt ["swap"] = .err .stackUnderflow initSt :=
  ⟨rfl, rfl, rfl, rfl, rfl, rfl, rfl, rfl, rfl, rfl, rfl⟩

/-- C7: with exactly one value on the stack, every binary native
operation pops that value during its first successful pop, then fails
with `StackUnderflow` on the second pop, leaving the stack empty: the
operand is consumed and not restored. -/
theorem c7_single_operand_consumed (v : Int) :
    exec 2 ⟨[v], initDict, []⟩ [.op (.native .add)] = .err .stackUnderflow ⟨[], initDict, []⟩
    ∧ exec 2 ⟨[v], initDict, []⟩ [.op (.native .sub)] = .err .stackUnderflow ⟨[], initDict, []⟩
    ∧ exec 2 ⟨[v], initDict, []⟩ [.op (.native .mul)] = .err .stackUnderflow ⟨[], initDict, []⟩
    ∧ exec 2 ⟨[v], initDict, []⟩ [.op (.native .div)] = .err .stackUnderflow ⟨[], initDict, []⟩
    ∧ exec 2 ⟨[v], initDict, []⟩ [.op (.native .swap)] = .err .stackUnderflow ⟨[], initDict, []⟩
    ∧ exec 2 ⟨[v], initDict, []⟩ [.op (.native .eqOp)] = .err .stackUnderflow ⟨[], initDict, []⟩
    ∧ exec 2 ⟨[v], initDict, []⟩ [.op (.native .neOp)] = .err .stackUnderflow ⟨[], initDict, []⟩
    ∧ exec 2 ⟨[v], initDict, []⟩ [.op (.native .ltOp)] = .err .stackUnderflow ⟨[], initDict, []⟩
    ∧ exec 2 ⟨[v], initDict, []⟩ [.op (.native .gtOp)] = .err .stackUnderflow ⟨[], initDict, []⟩ :=
  ⟨rfl, rfl, rfl, rfl, rfl, rfl, rfl, rfl, rfl⟩

/-- C7 (witness): `swap` with only `5` on the stack underflows and
leaves the stack empty. -/
theorem c7_single_operand_witness :
    exec 2 ⟨[5], initDict, []⟩ [.op (.native .swap)] =
      .err .stackUnderflow ⟨[], initDict, []⟩ :=
  (c7_single_operand_consumed 5).2.2.2.2.1

/-- C8 (counterexample): `drop` on an empty stack does not fail with
`StackUnderflow`: the source's closure ignores the result of `pop` and
returns `Ok(())`, so the line succeeds and the machine is unchanged. -/
theorem c8_drop_counterexample :
    runLine 2 initSt ["drop"] = .ok initSt
    ∧ Outcome.ok initSt ≠ .err .stackUnderflow initSt :=
  ⟨rfl, by decide⟩

/-- C8 (amended): `drop` never fails; on any stack it discards the top
value when present and is a no-op on an empty stack (the consistent
no-op alternative the spec's table permits). -/
theorem c8_drop_amended (s : List Int) (d : Dict) (o : List Int) :
    exec 2 ⟨s, d, o⟩ [.op (.native .drop)] = .ok ⟨s.tail, d, o⟩ := by
  have h := exec_native_one 0 .drop s d o
  simp only [Nat.zero_add] at h
  rw [h]
  simp [runNative]

/-- C8 (witness): `drop` on the empty stack succeeds and leaves it
empty. -/
theorem c8_drop_witness :
    exec 2 ⟨[], initDict, []⟩ [.op (.native .drop)] = .ok ⟨[], initDict, []⟩ :=
  c8_drop_amended [] initDict []

/-- C10: the tokenizer is not total: on the line `: ;` the definition
block closes with zero accumulated words, `pop_front` yields nothing and
the source's `name.unwrap()` panics, so `lex` returns neither a token
sequence nor a `ForthError` (the model's `panicked` marks the process
abort). -/
theorem c10_lex_not_total :
    lexWords initDict [":", ";"] = .panicked initDict := rfl

/-- Unfolding one REPL line on an explicit machine state. -/
theorem runLine_mk (f : Nat) (s : List Int) (d : Dict) (o : List Int) (ws : List String) :
    runLine f ⟨s, d, o⟩ ws =
      (match lexWords d ws with
       | .ok toks d' => exec f ⟨s, d', o⟩ toks
       | .err e d' => .err e ⟨s, d', o⟩
       | .panicked d' => .panicked ⟨s, d', o⟩) := rfl

/-- C9: once `:` has switched the tokenizer to defining mode, a line
whose remaining words never include `;` tokenizes successfully, emits no
token for the partial definition (the already-produced tokens are
returned unchanged), and installs nothing into the dictionary. -/
theorem c9_unterminated_definition (d : Dict) (acc : List Token) :
    ∀ (ws cur : List String), (∀ w ∈ ws, w ≠ ";") →
      lexGo d acc (.defining cur) ws = .ok acc d := by
  intro ws
  induction ws with
  | nil => intro cur _; rfl
  | cons w ws ih =>
    intro cur h
    have hw : w ≠ ";" := h w (List.mem_cons_self w ws)
    have h' : ∀ x ∈ ws, x ≠ ";" := fun x hx => h x (List.mem_cons_of_mem w hx)
    simp only [lexGo]
    rw [if_neg hw]
    exact ih (cur ++ [w]) h'

/-- C9 (witness): after `: noop`, a line ending without `;` lexes to the
tokens produced before the `:` (here none) with the dictionary
unchanged. -/
theorem c9_unterminated_definition_witness :
    lexGo initDict [] (.defining ["noop"]) ["dup"] = .ok [] initDict :=
  c9_unterminated_definition initDict [] ["dup"] ["noop"] (by decide)

/-- C5 (counterexample): at `a = 2^63`, `b = 1` the word for `a` is not
an `i64` literal (and resolves to nothing else), so the line fails with
`WordNotDefined` and prints nothing instead of printing `a + b`. -/
theorem c5_arith_counterexample :
    runLine 5 initSt ["9223372036854775808", "1", "+", "."] =
      .err (.wordNotDefined "9223372036854775808") initSt := rfl

/-- C5 (amended): for `i64`-representable `a` and `b` (given by any
words that parse to them) whose sum, difference and product are also
`i64`-representable, the lines `a b + .`, `a b - .`, `a b * .` on an
otherwise arbitrary stack push and print `a + b`, `a - b` and `a * b`
respectively. -/
theorem c5_arith_amended (a b : Int) (wa wb : String) (s : List Int)
    (ha : parseI64 wa = some a) (hb : parseI64 wb = some b)
    (h1 : i64min ≤ a + b) (h2 : a + b ≤ i64max)
    (h3 : i64min ≤ a - b) (h4 : a - b ≤ i64max)
    (h5 : i64min ≤ a * b) (h6 : a * b ≤ i64max) :
    runLine 5 ⟨s, initDict, []⟩ [wa, wb, "+", "."] = .ok ⟨(a + b) :: s, initDict, [a + b]⟩
    ∧ runLine 5 ⟨s, initDict, []⟩ [wa, wb, "-", "."] = .ok ⟨(a - b) :: s, initDict, [a - b]⟩
    ∧ runLine 5 ⟨s, initDict, []⟩ [wa, wb, "*", "."] = .ok ⟨(a * b) :: s, initDict, [a * b]⟩ := by
  refine ⟨?_, ?_, ?_⟩
  · have hlex : lexWords initDict [wa, wb, "+", "."] =
        .ok [.number a, .number b, .op (.native .add), .op (.native .print)] initDict := by
      simp only [lexWords, lexGo, ha, hb, parse_plus_none, lookup_plus, parse_dot_none,
        lookup_dot, List.nil_append, List.cons_append, List.append_nil]
    rw [runLine_mk, hlex]
    show exec 5 ⟨s, initDict, []⟩
        [.number a, .number b, .op (.native .add), .op (.native .print)] = _
    have hexec : exec 5 ⟨s, initDict, []⟩
        [.number a, .number b, .op (.native .add), .op (.native .print)] =
        .ok ⟨wrap64 (b + a) :: s, initDict, [wrap64 (b + a)]⟩ := rfl
    rw [hexec]
    have hw : wrap64 (b + a) = a + b := by
      rw [Int.add_comm b a]
      exact wrap64_eq _ h1 h2
    rw [hw]
  · have hlex : lexWords initDict [wa, wb, "-", "."] =
        .ok [.number a, .number b, .op (.native .sub), .op (.native .print)] initDict := by
      simp only [lexWords, lexGo, ha, hb, parse_dash_none, lookup_dash, parse_dot_none,
        lookup_dot, List.nil_append, List.cons_append, List.append_nil]
    rw [runLine_mk, hlex]
    show exec 5 ⟨s, initDict, []⟩
        [.number a, .number b, .op (.native .sub), .op (.native .print)] = _
    have hexec : exec 5 ⟨s, initDict, []⟩
        [.number a, .number b, .op (.native .sub), .op (.native .print)] =
        .ok ⟨wrap64 (a - b) :: s, initDict, [wrap64 (a - b)]⟩ := rfl
    rw [hexec, wrap64_eq _ h3 h4]
  · have hlex : lexWords initDict [wa, wb, "*", "."] =
        .ok [.number a, .number b, .op (.native .mul), .op (.native .print)] initDict := by
      simp only [lexWords, lexGo, ha, hb, parse_star_none, lookup_star, parse_dot_none,
        lookup_dot, List.nil_append, List.cons_append, List.append_nil]
    rw [runLine_mk, hlex]
    show exec 5 ⟨s, initDict, []⟩
        [.number a, .number b, .op (.native .mul), .op (.native .print)] = _
    have hexec : exec 5 ⟨s, initDict, []⟩
        [.number a, .number b, .op (.native .mul), .op (.native .print)] =
        .ok ⟨wrap64 (b * a) :: s, initDict, [wrap64 (b * a)]⟩ := rfl
    rw [hexec]
    have hw : wrap64 (b * a) = a * b := by
      rw [Int.mul_comm b a]
      exact wrap64_eq _ h5 h6
    rw [hw]

/-- C5 (witness): `3 4 + .` prints `7`, `3 4 - .` prints `-1`,
`3 4 * .` prints `12`. -/
theorem c5_arith_witness :
    runLine 5 ⟨[], initDict, []⟩ ["3", "4", "+", "."] = .ok ⟨[7], initDict, [7]⟩
    ∧ runLine 5 ⟨[], initDict, []⟩ ["3", "4", "-", "."] = .ok ⟨[-1], initDict, [-1]⟩
    ∧ runLine 5 ⟨[], initDict, []⟩ ["3", "4", "*", "."] = .ok ⟨[12], initDict, [12]⟩ := by
  have h := c5_arith_amended 3 4 "3" "4" [] (by decide) (by decide) (by decide) (by decide)
    (by decide) (by decide) (by decide) (by decide)
  exact ⟨h.1, h.2.1, h.2.2⟩

/-- One executor step on a number literal in a `Normal` frame. -/
theorem execTok_num (f : Nat) (st : St) (rest : List Frame) (n : Int) (ts : List Token) :
    execTok (f + 1) st (.normal :: rest) (.number n :: ts) =
      execTok f { st with stack := n :: st.stack } (.normal :: rest) ts := rfl

/-- One executor step on a native operation in a `Normal` frame. -/
theorem execTok_native (f : Nat) (st : St) (rest : List Frame) (opr : NativeOp) (ts : List Token) :
    execTok (f + 1) st (.normal :: rest) (.op (.native opr) :: ts) =
      (match runNative opr st.stack with
       | .okN s' pr =>
         execTok f { st with stack := s', out := st.out ++ pr.toList } (.normal :: rest) ts
       | .errN e s' => .err e { st with stack := s' }) := rfl

/-- One executor step on a stored-body macro in a `Normal` frame: the
body is re-lexed with the current dictionary and run on a fresh mode
stack, then execution resumes. -/
theorem execTok_deftoken (f : Nat) (s o : List Int) (d : Dict) (rest : List Frame)
    (body : String) (ts : List Token) :
    execTok (f + 1) ⟨s, d, o⟩ (.normal :: rest) (.op (.tokens body) :: ts) =
      (match lexWords d (splitWs body) with
       | .ok toks d' =>
         (match execTok f ⟨s, d', o⟩ [.normal] toks with
          | .ok st' => execTok f st' (.normal :: rest) ts
          | other => other)
       | .err e d' => .err e ⟨s, d', o⟩
       | .panicked d' => .panicked ⟨s, d', o⟩) := rfl

/-- Executing a simple token list followed by a continuation `r` in a
single `Normal` frame folds the simple prefix over the state and then
continues with `r` on the remaining fuel. -/
theorem exec_app : ∀ (toks : List Token), simpleToks toks = true →
    ∀ (fuel : Nat) (st : St) (r : List Token),
      execTok (fuel + toks.length) st [.normal] (toks ++ r) =
        (match stepSimple st toks with
         | .okS st' => execTok fuel st' [.normal] r
         | .errS e st' => .err e st'
         | .stuck => .oof) := by
  intro toks
  induction toks with
  | nil => intro _ fuel st r; rfl
  | cons t ts ih =>
    intro hsim fuel st r
    have hsplit : isSimple t = true ∧ simpleToks ts = true := by
      simpa [simpleToks, List.all_cons, Bool.and_eq_true] using hsim
    cases t with
    | number n =>
      simp only [List.length_cons, List.cons_append]
      have e1 : execTok (fuel + (ts.length + 1)) st [.normal] (.number n :: (ts ++ r)) =
          execTok (fuel + ts.length) { st with stack := n :: st.stack } [.normal] (ts ++ r) := rfl
      rw [e1, ih hsplit.2 fuel _ r]
      rfl
    | op dd =>
      cases dd with
      | native opr =>
        simp only [List.length_cons, List.cons_append]
        have e1 : execTok (fuel + (ts.length + 1)) st [.normal]
            (.op (.native opr) :: (ts ++ r)) =
            (match runNative opr st.stack with
             | .okN s' pr =>
               execTok (fuel + ts.length) { st with stack := s', out := st.out ++ pr.toList }
                 [.normal] (ts ++ r)
             | .errN e s' => .err e { st with stack := s' }) := rfl
        rw [e1]
        cases hrn : runNative opr st.stack with
        | okN s' pr =>
          simp only [hrn, stepSimple]
          exact ih hsplit.2 fuel _ r
        | errN e s' =>
          simp only [hrn, stepSimple]
      | tokens bb =>
        exact absurd hsplit.1 (by simp [isSimple])
    | keyword k =>
      exact absurd hsplit.1 (by simp [isSimple])

/-- A simple token list run alone in a `Normal` frame, with enough fuel,
computes exactly its fold. -/
theorem exec_std (toks : List Token) (hsim : simpleToks toks = true) (fuel : Nat) (st : St)
    (hF : toks.length + 1 ≤ fuel) :
    execTok fuel st [.normal] toks =
      (match stepSimple st toks with
       | .okS st' => .ok st'
       | .errS e st' => .err e st'
       | .stuck => .oof) := by
  obtain ⟨g, rfl⟩ : ∃ g, fuel = (g + 1) + toks.length := ⟨fuel - 1 - toks.length, by omega⟩
  have h := exec_app toks hsim (g + 1) st []
  rw [List.append_nil] at h
  rw [h]
  cases stepSimple st toks <;> rfl

/-- C4 (counterexample): a stored body is not always equivalent to its
inline expansion.  `: tst if 42 ;` stores the body `if 42`; on the line
`1 tst .` the macro's `if` opens a capture frame that swallows only the
body's own tokens, the fresh run ends without `then` discarding the
buffered `42`, and the following `.` underflows — while the inline line
`1 if 42 .` instead lets the open frame swallow the `.` too and
succeeds without printing. -/
theorem c4_inline_counterexample :
    runLine 10 initSt [":", "tst", "if", "42", ";"] =
      .ok ⟨[], insertD initDict "tst" (.tokens "if 42"), []⟩
    ∧ runLine 10 ⟨[], insertD initDict "tst" (.tokens "if 42"), []⟩ ["1", "tst", "."] =
      .err .stackUnderflow ⟨[], insertD initDict "tst" (.tokens "if 42"), []⟩
    ∧ runLine 10 ⟨[], insertD initDict "tst" (.tokens "if 42"), []⟩ ["1", "if", "42", "."] =
      .ok ⟨[], insertD initDict "tst" (.tokens "if 42"), []⟩ :=
  ⟨rfl, rfl, rfl⟩

/-- C4 (amended): invoking a stored definition is equivalent to inlining
its body at the point of invocation provided the body lexes, at
invocation time and under the current dictionary, to keyword-free
tokens (numbers and native operations) without installing definitions:
in a `Normal` frame, running the invocation token before a continuation
`r` equals running the body's tokens followed by `r` (fuel differs only
by the model's per-token accounting). -/
theorem c4_inline_amended (d : Dict) (s o : List Int) (b : String) (toks r : List Token)
    (F : Nat) (hlex : lexWords d (splitWs b) = .ok toks d)
    (hsim : simpleToks toks = true) (hF : toks.length + 1 ≤ F) :
    execTok (F + 1) ⟨s, d, o⟩ [.normal] (.op (.tokens b) :: r) =
      execTok (F + toks.length) ⟨s, d, o⟩ [.normal] (toks ++ r) := by
  rw [execTok_deftoken F s o d [] b r, hlex]
  show (match execTok F ⟨s, d, o⟩ [.normal] toks with
        | .ok st' => execTok F st' [.normal] r
        | other => other) = _
  rw [exec_std toks hsim F ⟨s, d, o⟩ hF]
  rw [exec_app toks hsim F ⟨s, d, o⟩ r]
  cases stepSimple ⟨s, d, o⟩ toks with
  | okS st' => rfl
  | errS e st' => rfl
  | stuck => rfl

/-- C4 (witness): with `double` stored as `dup +`, invoking it before
`.` equals inlining `dup +` before `.`; both double `10` to `20`, and
the spec's full example line `: double dup + ; 10 double .` prints
`20`. -/
theorem c4_inline_witness :
    execTok 4 ⟨[10], initDict, []⟩ [.normal]
        [.op (.tokens "dup +"), .op (.native .print)] =
      execTok 5 ⟨[10], initDict, []⟩ [.normal]
        [.op (.native .dup), .op (.native .add), .op (.native .print)]
    ∧ execTok 5 ⟨[10], initDict, []⟩ [.normal]
        [.op (.native .dup), .op (.native .add), .op (.native .print)] =
      .ok ⟨[20], initDict, [20]⟩
    ∧ runLine 20 initSt [":", "double", "dup", "+", ";", "10", "double", "."] =
      .ok ⟨[20], insertD initDict "double" (.tokens "dup +"), [20]⟩ := by
  refine ⟨?_, rfl, rfl⟩
  have h := c4_inline_amended initDict [10] [] "dup +"
    [.op (.native .dup), .op (.native .add)] [.op (.native .print)] 3
    (by decide) (by decide) (by decide)
  exact h

end Forth
